import Mathlib

/-!
Shallow embedding of the xelis-blockchain block/header DAG model and the
chain-synchronization packet codecs, for checking the repository's
natural-language specification.

Sources embedded:
- src/xelis_common/src/block/mod.rs (BlockHeader, Block, work/pow buffers,
  canonical serializer)
- src/xelis_daemon/src/p2p/packet/chain.rs (BlockId, ChainRequest,
  CommonPoint, ChainResponse)
- src/xelis_common/src/crypto/address.rs (AddressType codec)
- src/xelis_common/src/crypto/key.rs (PublicKey codec)

The byte-oriented reader/writer pair ("Canonical Codec"), the content hash,
the protocol configuration constants, the DataElement payload and the
Transaction encoding are not part of the given sources; they are external
collaborators and are modelled from the spec, parametrically where possible.

Bytes are modelled as natural numbers (values below 256 when produced by the
writers); multi-byte integers are big-endian, matching the spec's layouts.
-/

namespace Xelis

/-- Modelled from the spec: the typed failure result of the Canonical Codec
(spec section 7 error taxonomy; variant names from their uses in the given
sources: `ReaderError::InvalidValue`, `ReaderError::InvalidSize`,
`ReaderError::ErrorTryInto`; truncation surfaces as `InvalidSize`). -/
inductive ReaderError where
  | InvalidSize
  | InvalidValue
  | ErrorTryInto
deriving DecidableEq

/-- A byte string: list of naturals (each below 256 when written). -/
abbrev Bytes := List Nat

/-- A reader computation: consumes a byte string, returns a value and the
remaining bytes, or a typed error. -/
abbrev ReadM (α : Type) := Bytes → Except ReaderError (α × Bytes)

/-- Sequencing of reader computations. -/
def rbind {α β : Type} (m : ReadM α) (f : α → ReadM β) : ReadM β := fun bs =>
  match m bs with
  | .error e => .error e
  | .ok (a, rest) => f a rest

/-- Big-endian byte decomposition of `v` into `w` bytes (most significant
first), as the Rust `to_be_bytes` calls produce. -/
def beBytes : Nat → Nat → Bytes
  | 0, _ => []
  | w + 1, v => (v / 256 ^ w) % 256 :: beBytes w v

/-- Big-endian value of a byte string, as the Rust `from_be_bytes` calls
compute. -/
def beVal (l : Bytes) : Nat := l.foldl (fun acc b => acc * 256 + b) 0

/-- Modelled from the spec: Canonical Codec primitive reading exactly `n`
raw bytes, failing on truncated input. -/
def readChunk (n : Nat) : ReadM Bytes := fun bs =>
  if n ≤ bs.length then .ok (bs.take n, bs.drop n) else .error .InvalidSize

/-- Modelled from the spec: Canonical Codec primitive reading a `w`-byte
big-endian unsigned integer (`read_u8`/`read_u16`/`read_u64`/`read_u128`). -/
def readU (w : Nat) : ReadM Nat := fun bs =>
  match readChunk w bs with
  | .error e => .error e
  | .ok (c, rest) => .ok (beVal c, rest)

/-- Reading `n` items in sequence, accumulating them in order (the
`for _ in 0..n { v.push(item.read()?) }` loops). -/
def readCount {α : Type} (item : ReadM α) : Nat → ReadM (List α)
  | 0 => fun bs => .ok ([], bs)
  | n + 1 => fun bs =>
    match item bs with
    | .error e => .error e
    | .ok (x, rest) =>
      match readCount item n rest with
      | .error e => .error e
      | .ok (xs, rest2) => .ok (x :: xs, rest2)

/-- Writing a list of items in order (the `for x in list { x.write(w) }`
loops). -/
def writeList {α : Type} (f : α → Bytes) : List α → Bytes
  | [] => []
  | x :: xs => f x ++ writeList f xs

theorem beBytes_length (w v : Nat) : (beBytes w v).length = w := by
  induction w generalizing v with
  | zero => rfl
  | succ w ih => simp [beBytes, ih]

theorem beVal_foldl (w v acc : Nat) :
    List.foldl (fun a b => a * 256 + b) acc (beBytes w v)
      = acc * 256 ^ w + v % 256 ^ w := by
  induction w generalizing v acc with
  | zero => simp [beBytes, Nat.mod_one]
  | succ w ih =>
    simp only [beBytes, List.foldl_cons, ih]
    have h256 : 256 ^ (w + 1) = 256 ^ w * 256 := by ring
    have hmod : v % 256 ^ (w + 1) = 256 ^ w * (v / 256 ^ w % 256) + v % 256 ^ w := by
      rw [h256, Nat.mod_mul]
      ring
    rw [hmod]
    ring

theorem beVal_beBytes (w v : Nat) : beVal (beBytes w v) = v % 256 ^ w := by
  simpa using beVal_foldl w v 0

theorem beVal_beBytes_of_lt {w v : Nat} (h : v < 256 ^ w) :
    beVal (beBytes w v) = v := by
  rw [beVal_beBytes, Nat.mod_eq_of_lt h]

theorem readChunk_append {n : Nat} {l : Bytes} (rest : Bytes)
    (h : l.length = n) : readChunk n (l ++ rest) = .ok (l, rest) := by
  subst h
  simp [readChunk, List.take_left, List.drop_left]

theorem readU_append (w v : Nat) (rest : Bytes) :
    readU w (beBytes w v ++ rest) = .ok (v % 256 ^ w, rest) := by
  simp [readU, readChunk_append rest (beBytes_length w v), beVal_beBytes]

theorem readU_append_of_lt {w v : Nat} (rest : Bytes) (h : v < 256 ^ w) :
    readU w (beBytes w v ++ rest) = .ok (v, rest) := by
  rw [readU_append, Nat.mod_eq_of_lt h]

theorem readChunk_exact {n : Nat} {l : Bytes} (h : l.length = n) :
    readChunk n l = .ok (l, []) := by
  have := readChunk_append (l := l) [] h
  simpa using this

theorem readCount_append {α : Type} {item : ReadM α} {f : α → Bytes}
    (l : List α) (rest : Bytes)
    (h : ∀ x ∈ l, ∀ r : Bytes, item (f x ++ r) = .ok (x, r)) :
    readCount item l.length (writeList f l ++ rest) = .ok (l, rest) := by
  induction l with
  | nil => simp [readCount, writeList]
  | cons x xs ih =>
    have hx := h x (by simp) (writeList f xs ++ rest)
    simp only [writeList, List.length_cons, readCount, List.append_assoc, hx]
    rw [ih (fun y hy r => h y (by simp [hy]) r)]

theorem readCount_length {α : Type} {item : ReadM α} :
    ∀ {n : Nat} {bs rest : Bytes} {l : List α},
      readCount item n bs = .ok (l, rest) → l.length = n := by
  intro n
  induction n with
  | zero =>
    intro bs rest l h
    simp only [readCount] at h
    cases h
    rfl
  | succ n ih =>
    intro bs rest l h
    simp only [readCount] at h
    cases hit : item bs with
    | error e =>
      simp only [hit] at h
      exact Except.noConfusion h
    | ok p =>
      obtain ⟨x, rest1⟩ := p
      simp only [hit] at h
      cases hrec : readCount item n rest1 with
      | error e =>
        simp only [hrec] at h
        exact Except.noConfusion h
      | ok q =>
        obtain ⟨xs, rest2⟩ := q
        simp only [hrec, Except.ok.injEq, Prod.mk.injEq] at h
        obtain ⟨h1, h2⟩ := h
        subst h1
        simp [ih hrec]

/-- A 32-byte content digest (`crypto::hash::Hash`); the wrapped byte string
is expected to have length 32. -/
structure Hash where
  bytes : Bytes
deriving DecidableEq

/-- `Writer::write_hash`: the raw 32 bytes. -/
def writeHash (h : Hash) : Bytes := h.bytes

/-- `Reader::read_hash`: 32 raw bytes. -/
def readHash : ReadM Hash := fun bs =>
  match readChunk 32 bs with
  | .error e => .error e
  | .ok (c, rest) => .ok (⟨c⟩, rest)

theorem readHash_append {h : Hash} (rest : Bytes) (hl : h.bytes.length = 32) :
    readHash (writeHash h ++ rest) = .ok (h, rest) := by
  simp [readHash, writeHash, readChunk_append rest hl]

/-- A public key (`crypto::key::PublicKey`): 32 bytes that form a valid
curve point. Point validity itself is external (`ed25519_dalek`), so the
codec below is parametrized by the validity test. -/
structure PublicKey where
  bytes : Bytes
deriving DecidableEq

/-- `impl Serializer for PublicKey`, `write`: the raw key bytes. -/
def PublicKey.write (pk : PublicKey) : Bytes := pk.bytes

/-- `impl Serializer for PublicKey`, `read`: 32 bytes, then the external
point-decompression check (`ed25519_dalek::PublicKey::from_bytes`), whose
failure surfaces as `ErrorTryInto`. -/
def PublicKey.read (validPoint : Bytes → Bool) : ReadM PublicKey := fun bs =>
  match readChunk 32 bs with
  | .error e => .error e
  | .ok (c, rest) => if validPoint c then .ok (⟨c⟩, rest) else .error .ErrorTryInto

theorem PublicKey.read_append {validPoint : Bytes → Bool} {pk : PublicKey}
    (rest : Bytes) (hl : pk.bytes.length = 32) (hv : validPoint pk.bytes = true) :
    PublicKey.read validPoint (PublicKey.write pk ++ rest) = .ok (pk, rest) := by
  simp [PublicKey.read, PublicKey.write, readChunk_append rest hl, hv]

/-- `EXTRA_NONCE_SIZE` (block/mod.rs). -/
def EXTRA_NONCE_SIZE : Nat := 32

/-- `HEADER_WORK_SIZE` (block/mod.rs). -/
def HEADER_WORK_SIZE : Nat := 73

/-- `BLOCK_WORK_SIZE` (block/mod.rs). -/
def BLOCK_WORK_SIZE : Nat := 120

/-- `BlockHeader` (block/mod.rs). Field widths (u8/u64/u128/u64) are carried
as naturals; structural-validity bounds appear as theorem hypotheses. -/
structure BlockHeader where
  version : Nat
  tips : List Hash
  timestamp : Nat
  height : Nat
  nonce : Nat
  extra_nonce : Bytes
  miner : PublicKey
  txs_hashes : List Hash
deriving DecidableEq

/-- `BlockHeader::new`: nonce starts at zero, everything else is taken as
given, with no validation. -/
def BlockHeader.new (version height timestamp : Nat) (tips : List Hash)
    (extra_nonce : Bytes) (miner : PublicKey) (txs_hashes : List Hash) :
    BlockHeader :=
  { version := version, height := height, timestamp := timestamp,
    tips := tips, nonce := 0, extra_nonce := extra_nonce, miner := miner,
    txs_hashes := txs_hashes }

/-- `BlockHeader::get_tips_hash`: digest of the concatenated tip hashes, in
list order. `hashFn` is the external content hash. -/
def BlockHeader.get_tips_hash (hashFn : Bytes → Hash) (h : BlockHeader) : Hash :=
  hashFn (h.tips.foldl (fun acc t => acc ++ t.bytes) [])

/-- `BlockHeader::get_txs_hash`: digest of the concatenated transaction
hashes, in list order. -/
def BlockHeader.get_txs_hash (hashFn : Bytes → Hash) (h : BlockHeader) : Hash :=
  hashFn (h.txs_hashes.foldl (fun acc t => acc ++ t.bytes) [])

/-- `BlockHeader::get_work`: version ‖ height_be(8) ‖ tips_hash ‖ txs_hash;
the Rust panic on a length mismatch is modelled as `none`. -/
def BlockHeader.get_work (hashFn : Bytes → Hash) (h : BlockHeader) :
    Option Bytes :=
  let bytes := [h.version] ++ beBytes 8 h.height
      ++ (h.get_tips_hash hashFn).bytes ++ (h.get_txs_hash hashFn).bytes
  if bytes.length ≠ HEADER_WORK_SIZE then none else some bytes

/-- `BlockHeader::get_work_hash`: digest of the work buffer (a propagated
`none` models the panic propagating). -/
def BlockHeader.get_work_hash (hashFn : Bytes → Hash) (h : BlockHeader) :
    Option Hash :=
  (h.get_work hashFn).map hashFn

/-- `BlockHeader::get_serialized_header`: work_hash ‖ timestamp_be(16) ‖
nonce_be(8) ‖ extra_nonce ‖ miner; the panic on a length mismatch is
modelled as `none`. -/
def BlockHeader.get_serialized_header (hashFn : Bytes → Hash)
    (h : BlockHeader) : Option Bytes :=
  match h.get_work_hash hashFn with
  | none => none
  | some wh =>
    let bytes := wh.bytes ++ beBytes 16 h.timestamp ++ beBytes 8 h.nonce
        ++ h.extra_nonce ++ h.miner.bytes
    if bytes.length ≠ BLOCK_WORK_SIZE then none else some bytes

/-- `BlockHeader::get_pow_hash`: digest of the serialized header. -/
def BlockHeader.get_pow_hash (hashFn : Bytes → Hash) (h : BlockHeader) :
    Option Hash :=
  (h.get_serialized_header hashFn).map hashFn

/-- `impl Hashable for BlockHeader`: the identity hash, digest of the same
serialized-header buffer. -/
def BlockHeader.identityHash (hashFn : Bytes → Hash) (h : BlockHeader) :
    Option Hash :=
  (h.get_serialized_header hashFn).map hashFn

/-- `impl Serializer for BlockHeader`, `write`: version(1) height(8)
timestamp(16) nonce(8) extra_nonce(32) tip_count(1) tips tx_count(2)
tx_hashes miner(32). -/
def BlockHeader.write (h : BlockHeader) : Bytes :=
  beBytes 1 h.version ++ beBytes 8 h.height ++ beBytes 16 h.timestamp
    ++ beBytes 8 h.nonce ++ h.extra_nonce
    ++ beBytes 1 h.tips.length ++ writeList writeHash h.tips
    ++ beBytes 2 h.txs_hashes.length ++ writeList writeHash h.txs_hashes
    ++ PublicKey.write h.miner

/-- `impl Serializer for BlockHeader`, `read`: fields in the exact wire
order, with no bound check on the tip/tx counts. -/
def BlockHeader.read (validPoint : Bytes → Bool) : ReadM BlockHeader :=
  rbind (readU 1) fun version =>
  rbind (readU 8) fun height =>
  rbind (readU 16) fun timestamp =>
  rbind (readU 8) fun nonce =>
  rbind (readChunk 32) fun extra_nonce =>
  rbind (readU 1) fun tips_count =>
  rbind (readCount readHash tips_count) fun tips =>
  rbind (readU 2) fun txs_count =>
  rbind (readCount readHash txs_count) fun txs_hashes =>
  rbind (PublicKey.read validPoint) fun miner =>
  fun bs => .ok ({ version := version, tips := tips, timestamp := timestamp,
                   height := height, nonce := nonce,
                   extra_nonce := extra_nonce, miner := miner,
                   txs_hashes := txs_hashes }, bs)

theorem rbind_ok {α β : Type} {m : ReadM α} {f : α → ReadM β} {bs : Bytes}
    {a : α} {rest : Bytes} (h : m bs = .ok (a, rest)) :
    rbind m f bs = f a rest := by
  simp [rbind, h]

theorem rbind_error {α β : Type} {m : ReadM α} {f : α → ReadM β} {bs : Bytes}
    {e : ReaderError} (h : m bs = .error e) :
    rbind m f bs = .error e := by
  simp [rbind, h]

/-- Structural validity of a `BlockHeader` value: the field-width and
length invariants the Rust types enforce. -/
def BlockHeader.wf (h : BlockHeader) : Prop :=
  h.version < 256 ∧ h.height < 256 ^ 8 ∧ h.timestamp < 256 ^ 16 ∧
  h.nonce < 256 ^ 8 ∧ h.extra_nonce.length = 32 ∧
  h.tips.length ≤ 255 ∧ (∀ t ∈ h.tips, t.bytes.length = 32) ∧
  h.txs_hashes.length ≤ 65535 ∧ (∀ t ∈ h.txs_hashes, t.bytes.length = 32) ∧
  h.miner.bytes.length = 32

theorem headerRoundtrip {validPoint : Bytes → Bool} (h : BlockHeader)
    (rest : Bytes) (hwf : h.wf) (hv : validPoint h.miner.bytes = true) :
    BlockHeader.read validPoint (BlockHeader.write h ++ rest)
      = .ok (h, rest) := by
  obtain ⟨h1, h2, h3, h4, h5, h6, h7, h8, h9, h10⟩ := hwf
  rw [BlockHeader.read, BlockHeader.write]
  simp only [List.append_assoc]
  rw [rbind_ok (readU_append_of_lt _ h1)]
  rw [rbind_ok (readU_append_of_lt _ h2)]
  rw [rbind_ok (readU_append_of_lt _ h3)]
  rw [rbind_ok (readU_append_of_lt _ h4)]
  rw [rbind_ok (readChunk_append _ h5)]
  rw [rbind_ok (readU_append_of_lt _ (by norm_num; omega))]
  rw [rbind_ok (readCount_append h.tips _ (fun x hx r => readHash_append r (h7 x hx)))]
  rw [rbind_ok (readU_append_of_lt _ (by norm_num; omega))]
  rw [rbind_ok (readCount_append h.txs_hashes _ (fun x hx r => readHash_append r (h9 x hx)))]
  rw [rbind_ok (PublicKey.read_append _ h10 hv)]

/-- `Block` (block/mod.rs): a header plus the full transaction list. The
`Immutable` ownership wrapper (owned vs shared, content-transparent) is
modelled by its content; the transaction type and codec are external here,
so the model is parametric in them. -/
structure Block (Tx : Type) where
  header : BlockHeader
  transactions : List Tx

/-- `Block::new`: stores both parts with no cross-check. -/
def Block.new {Tx : Type} (header : BlockHeader) (transactions : List Tx) :
    Block Tx :=
  { header := header, transactions := transactions }

/-- `impl Serializer for Block`, `write`: header then each transaction. -/
def Block.write {Tx : Type} (txWrite : Tx → Bytes) (b : Block Tx) : Bytes :=
  BlockHeader.write b.header ++ writeList txWrite b.transactions

/-- `impl Serializer for Block`, `read`: header, then exactly
`header.get_txs_count()` transactions. -/
def Block.read {Tx : Type} (validPoint : Bytes → Bool) (txRead : ReadM Tx) :
    ReadM (Block Tx) :=
  rbind (BlockHeader.read validPoint) fun hdr =>
  rbind (readCount txRead hdr.txs_hashes.length) fun txs =>
  fun bs => .ok ({ header := hdr, transactions := txs }, bs)

/-- `BlockId` (p2p/packet/chain.rs): a (hash, topoheight) checkpoint. -/
structure BlockId where
  hash : Hash
  topoheight : Nat
deriving DecidableEq

/-- `impl Serializer for BlockId`, `write`: hash(32) topoheight(8). -/
def BlockId.write (b : BlockId) : Bytes :=
  writeHash b.hash ++ beBytes 8 b.topoheight

/-- `impl Serializer for BlockId`, `read`. -/
def BlockId.read : ReadM BlockId :=
  rbind readHash fun h =>
  rbind (readU 8) fun t =>
  fun bs => .ok ({ hash := h, topoheight := t }, bs)

theorem blockIdRoundtrip (b : BlockId) (rest : Bytes)
    (h1 : b.hash.bytes.length = 32) (h2 : b.topoheight < 256 ^ 8) :
    BlockId.read (BlockId.write b ++ rest) = .ok (b, rest) := by
  rw [BlockId.read, BlockId.write]
  simp only [List.append_assoc]
  rw [rbind_ok (readHash_append _ h1)]
  rw [rbind_ok (readU_append_of_lt _ h2)]

/-- `CommonPoint` (p2p/packet/chain.rs): same layout as `BlockId`, a
separate type. -/
structure CommonPoint where
  hash : Hash
  topoheight : Nat
deriving DecidableEq

/-- `impl Serializer for CommonPoint`, `write`. -/
def CommonPoint.write (c : CommonPoint) : Bytes :=
  writeHash c.hash ++ beBytes 8 c.topoheight

/-- `impl Serializer for CommonPoint`, `read`. -/
def CommonPoint.read : ReadM CommonPoint :=
  rbind readHash fun h =>
  rbind (readU 8) fun t =>
  fun bs => .ok ({ hash := h, topoheight := t }, bs)

theorem commonPointRoundtrip (c : CommonPoint) (rest : Bytes)
    (h1 : c.hash.bytes.length = 32) (h2 : c.topoheight < 256 ^ 8) :
    CommonPoint.read (CommonPoint.write c ++ rest) = .ok (c, rest) := by
  rw [CommonPoint.read, CommonPoint.write]
  simp only [List.append_assoc]
  rw [rbind_ok (readHash_append _ h1)]
  rw [rbind_ok (readU_append_of_lt _ h2)]

/-- Modelled from the spec: the Canonical Codec's optional-value layout, a
one-byte presence flag (`has_common_point(1)`) followed by the value when
present; any other flag byte is an out-of-range discriminant. -/
def writeOption {α : Type} (f : α → Bytes) : Option α → Bytes
  | none => beBytes 1 0
  | some x => beBytes 1 1 ++ f x

/-- Modelled from the spec: reading an optional value. -/
def readOption {α : Type} (item : ReadM α) : ReadM (Option α) := fun bs =>
  match readU 1 bs with
  | .error e => .error e
  | .ok (0, rest) => .ok (none, rest)
  | .ok (1, rest) =>
    match item rest with
    | .error e => .error e
    | .ok (x, r) => .ok (some x, r)
  | .ok (_, _) => .error .InvalidValue

theorem readOption_write {α : Type} {item : ReadM α} {f : α → Bytes}
    (o : Option α) (rest : Bytes)
    (h : ∀ x, o = some x → ∀ r : Bytes, item (f x ++ r) = .ok (x, r)) :
    readOption item (writeOption f o ++ rest) = .ok (o, rest) := by
  cases o with
  | none =>
    have : readU 1 (beBytes 1 0 ++ rest) = .ok (0, rest) :=
      readU_append_of_lt rest (by norm_num)
    simp [writeOption, readOption, this]
  | some x =>
    have h1 : readU 1 (beBytes 1 1 ++ (f x ++ rest)) = .ok (1, f x ++ rest) :=
      readU_append_of_lt _ (by norm_num)
    simp [writeOption, readOption, List.append_assoc, h1, h x rfl rest]

/-- Modelled from the spec: the deployment-set protocol bounds imported by
p2p/packet/chain.rs from the daemon configuration (not in the given
sources); kept abstract as a record of naturals. -/
structure Config where
  CHAIN_SYNC_REQUEST_MAX_BLOCKS : Nat
  CHAIN_SYNC_RESPONSE_MIN_BLOCKS : Nat
  CHAIN_SYNC_RESPONSE_MAX_BLOCKS : Nat
  CHAIN_SYNC_TOP_BLOCKS : Nat
  TIPS_LIMIT : Nat

/-- `ChainRequest` (p2p/packet/chain.rs). -/
structure ChainRequest where
  blocks : List BlockId
  accepted_response_size : Nat
deriving DecidableEq

/-- `impl Serializer for ChainRequest`, `write`: count(1) ids size(2). -/
def ChainRequest.write (r : ChainRequest) : Bytes :=
  beBytes 1 r.blocks.length ++ writeList BlockId.write r.blocks
    ++ beBytes 2 r.accepted_response_size

/-- `impl Serializer for ChainRequest`, `read`: rejects an empty or
oversized checkpoint list and an out-of-bounds accepted response size with
`InvalidValue` (the `as u8` / `as u16` casts on the configured constants
appear as `% 256` / `% 65536`). -/
def ChainRequest.read (cfg : Config) : ReadM ChainRequest :=
  rbind (readU 1) fun len => fun bs =>
    if len = 0 ∨ len > cfg.CHAIN_SYNC_REQUEST_MAX_BLOCKS % 256 then
      .error .InvalidValue
    else
      (rbind (readCount BlockId.read len) fun blocks =>
       rbind (readU 2) fun ars => fun bs2 =>
         if ars < cfg.CHAIN_SYNC_RESPONSE_MIN_BLOCKS % 65536
            ∨ ars > cfg.CHAIN_SYNC_RESPONSE_MAX_BLOCKS % 65536 then
           .error .InvalidValue
         else
           .ok ({ blocks := blocks, accepted_response_size := ars }, bs2)) bs

/-- `ChainResponse` (p2p/packet/chain.rs). The `IndexSet`s are modelled as
insertion-ordered lists; decode establishes their uniqueness. -/
structure ChainResponse where
  common_point : Option CommonPoint
  blocks : List Hash
  top_blocks : List Hash
deriving DecidableEq

/-- `ChainResponse::new`. -/
def ChainResponse.new (common_point : Option CommonPoint)
    (blocks top_blocks : List Hash) : ChainResponse :=
  { common_point := common_point, blocks := blocks, top_blocks := top_blocks }

/-- `ChainResponse::get_common_point`: `self.common_point.take()` on a
mutable receiver, modelled as returning the taken value together with the
updated receiver. -/
def ChainResponse.get_common_point (r : ChainResponse) :
    Option CommonPoint × ChainResponse :=
  (r.common_point, { r with common_point := none })

/-- `impl Serializer for ChainResponse`, `write`. -/
def ChainResponse.write (r : ChainResponse) : Bytes :=
  writeOption CommonPoint.write r.common_point
    ++ beBytes 2 r.blocks.length ++ writeList writeHash r.blocks
    ++ beBytes 1 r.top_blocks.length ++ writeList writeHash r.top_blocks

/-- The hash-set reading loop of `ChainResponse::read`: reads `n` hashes,
rejecting with `InvalidValue` a hash already in `forbidden` (the earlier
set, for the top-blocks loop) or already inserted (`!set.insert(hash)`). -/
def readUniqueHashes (forbidden : List Hash) (acc : List Hash) :
    Nat → ReadM (List Hash)
  | 0 => fun bs => .ok (acc, bs)
  | n + 1 => fun bs =>
    match readHash bs with
    | .error e => .error e
    | .ok (h, rest) =>
      if h ∈ forbidden ∨ h ∈ acc then .error .InvalidValue
      else readUniqueHashes forbidden (acc ++ [h]) n rest

/-- `impl Serializer for ChainResponse`, `read`: optional common point, the
`blocks` set (bounded, duplicate-free), then the `top_blocks` set (bounded,
duplicate-free and disjoint from `blocks`). -/
def ChainResponse.read (cfg : Config) : ReadM ChainResponse :=
  rbind (readOption CommonPoint.read) fun common_point =>
  rbind (readU 2) fun len => fun bs =>
    if len > cfg.CHAIN_SYNC_RESPONSE_MAX_BLOCKS % 65536 then
      .error .InvalidValue
    else
      (rbind (readUniqueHashes [] [] len) fun blocks =>
       rbind (readU 1) fun len2 => fun bs2 =>
         if len2 > (cfg.CHAIN_SYNC_TOP_BLOCKS * cfg.TIPS_LIMIT) % 256 then
           .error .InvalidValue
         else
           (rbind (readUniqueHashes blocks [] len2) fun top_blocks =>
            fun bs3 =>
              .ok (ChainResponse.new common_point blocks top_blocks, bs3)) bs2) bs

/-- The insertion loop succeeds on the encoding of `l` exactly when `l` has
no duplicates and avoids both the accumulator and the forbidden set; the
result appends `l` to the accumulator. -/
theorem readUniqueHashes_write_ok (forbidden : List Hash) (l : List Hash)
    (acc : List Hash) (rest : Bytes)
    (h32 : ∀ h ∈ l, h.bytes.length = 32)
    (hnd : l.Nodup) (hacc : ∀ h ∈ l, h ∉ acc) (hforb : ∀ h ∈ l, h ∉ forbidden) :
    readUniqueHashes forbidden acc l.length (writeList writeHash l ++ rest)
      = .ok (acc ++ l, rest) := by
  induction l generalizing acc with
  | nil => simp [readUniqueHashes, writeList]
  | cons h t ih =>
    have hh := readHash_append (h := h) (writeList writeHash t ++ rest)
      (h32 h (by simp))
    simp only [writeList, List.length_cons, readUniqueHashes,
      List.append_assoc, hh]
    have hnot : ¬(h ∈ forbidden ∨ h ∈ acc) := by
      push_neg
      exact ⟨hforb h (by simp), hacc h (by simp)⟩
    rw [if_neg hnot]
    have ih2 := ih (acc ++ [h]) (fun x hx => h32 x (by simp [hx]))
      (List.Nodup.of_cons hnd)
      (fun x hx => by
        simp only [List.mem_append, List.mem_singleton]
        push_neg
        refine ⟨hacc x (by simp [hx]), ?_⟩
        intro hxe
        subst hxe
        exact (List.nodup_cons.mp hnd).1 hx)
      (fun x hx => hforb x (by simp [hx]))
    rw [ih2, List.append_assoc]
    rfl

/-- The insertion loop rejects the encoding of `l` with `InvalidValue`
whenever `l` has a duplicate or meets the accumulator or forbidden set. -/
theorem readUniqueHashes_write_error (forbidden : List Hash) (l : List Hash)
    (acc : List Hash) (rest : Bytes)
    (h32 : ∀ h ∈ l, h.bytes.length = 32)
    (hbad : ¬(l.Nodup ∧ (∀ h ∈ l, h ∉ acc) ∧ (∀ h ∈ l, h ∉ forbidden))) :
    readUniqueHashes forbidden acc l.length (writeList writeHash l ++ rest)
      = .error .InvalidValue := by
  induction l generalizing acc with
  | nil =>
    exact absurd ⟨List.nodup_nil, by simp, by simp⟩ hbad
  | cons h t ih =>
    have hh := readHash_append (h := h) (writeList writeHash t ++ rest)
      (h32 h (by simp))
    simp only [writeList, List.length_cons, readUniqueHashes,
      List.append_assoc, hh]
    by_cases hmem : h ∈ forbidden ∨ h ∈ acc
    · rw [if_pos hmem]
    · rw [if_neg hmem]
      push_neg at hmem
      apply ih (acc ++ [h]) (fun x hx => h32 x (by simp [hx]))
      intro ⟨hnd, hacc, hforb⟩
      apply hbad
      refine ⟨List.nodup_cons.mpr ⟨?_, hnd⟩, ?_, ?_⟩
      · intro hht
        have := hacc h hht
        simp at this
      · intro x hx
        rcases List.mem_cons.mp hx with hxe | hxt
        · subst hxe; exact hmem.2
        · intro hxa
          exact hacc x hxt (by simp [hxa])
      · intro x hx
        rcases List.mem_cons.mp hx with hxe | hxt
        · subst hxe; exact hmem.1
        · exact hforb x hxt

/-- On any input whatsoever, a successful insertion loop yields a
duplicate-free list avoiding the forbidden set (given the accumulator it
started from already did). -/
theorem readUniqueHashes_ok_inv (forbidden : List Hash) :
    ∀ {n : Nat} {acc : List Hash} {bs rest : Bytes} {r : List Hash},
      readUniqueHashes forbidden acc n bs = .ok (r, rest) →
      acc.Nodup → (∀ a ∈ acc, a ∉ forbidden) →
      r.Nodup ∧ ∀ h ∈ r, h ∉ forbidden := by
  intro n
  induction n with
  | zero =>
    intro acc bs rest r h hnd hforb
    simp only [readUniqueHashes] at h
    cases h
    exact ⟨hnd, hforb⟩
  | succ n ih =>
    intro acc bs rest r h hnd hforb
    simp only [readUniqueHashes] at h
    cases hh : readHash bs with
    | error e =>
      simp only [hh] at h
      exact Except.noConfusion h
    | ok p =>
      obtain ⟨x, rest1⟩ := p
      simp only [hh] at h
      by_cases hmem : x ∈ forbidden ∨ x ∈ acc
      · rw [if_pos hmem] at h
        exact Except.noConfusion h
      · rw [if_neg hmem] at h
        push_neg at hmem
        refine ih h ?_ ?_
        · refine List.Nodup.append hnd (List.nodup_singleton x) ?_
          intro a ha hax
          exact absurd ((List.mem_singleton.mp hax) ▸ ha) hmem.2
        · intro a ha
          rcases List.mem_append.mp ha with ha1 | ha2
          · exact hforb a ha1
          · rw [List.mem_singleton.mp ha2]
            exact hmem.1

/-- Inversion of a successful `rbind`. -/
theorem rbind_ok_inv {α β : Type} {m : ReadM α} {f : α → ReadM β}
    {bs : Bytes} {b : β} {rest : Bytes}
    (h : rbind m f bs = .ok (b, rest)) :
    ∃ a mid, m bs = .ok (a, mid) ∧ f a mid = .ok (b, rest) := by
  unfold rbind at h
  cases hm : m bs with
  | error e =>
    simp only [hm] at h
    exact Except.noConfusion h
  | ok p =>
    obtain ⟨a, mid⟩ := p
    simp only [hm] at h
    exact ⟨a, mid, rfl, h⟩

/-- On any input whatsoever, the sets of a successfully decoded
`ChainResponse` are duplicate-free and disjoint. -/
theorem ChainResponse.read_ok_inv {cfg : Config} {bs rest : Bytes}
    {r : ChainResponse} (h : ChainResponse.read cfg bs = .ok (r, rest)) :
    r.blocks.Nodup ∧ r.top_blocks.Nodup ∧ ∀ x ∈ r.top_blocks, x ∉ r.blocks := by
  rw [ChainResponse.read] at h
  obtain ⟨cp, bs1, hcp, h⟩ := rbind_ok_inv h
  obtain ⟨len, bs2, hlen, h⟩ := rbind_ok_inv h
  by_cases hcap : len > cfg.CHAIN_SYNC_RESPONSE_MAX_BLOCKS % 65536
  · rw [if_pos hcap] at h
    exact Except.noConfusion h
  · rw [if_neg hcap] at h
    obtain ⟨blocks, bs3, hbl, h⟩ := rbind_ok_inv h
    obtain ⟨len2, bs4, hlen2, h⟩ := rbind_ok_inv h
    by_cases hcap2 : len2 > (cfg.CHAIN_SYNC_TOP_BLOCKS * cfg.TIPS_LIMIT) % 256
    · rw [if_pos hcap2] at h
      exact Except.noConfusion h
    · rw [if_neg hcap2] at h
      obtain ⟨top_blocks, bs5, htp, h⟩ := rbind_ok_inv h
      simp only [ChainResponse.new, Except.ok.injEq, Prod.mk.injEq] at h
      obtain ⟨h1, h2⟩ := h
      subst h1
      have hb := readUniqueHashes_ok_inv [] hbl
        List.nodup_nil (by simp)
      have ht := readUniqueHashes_ok_inv blocks htp
        List.nodup_nil (by simp)
      exact ⟨hb.1, ht.1, ht.2⟩

theorem chainRequestRoundtrip (cfg : Config) (r : ChainRequest)
    (rest : Bytes)
    (hlen0 : r.blocks.length ≠ 0)
    (hlen255 : r.blocks.length ≤ 255)
    (hcap : r.blocks.length ≤ cfg.CHAIN_SYNC_REQUEST_MAX_BLOCKS % 256)
    (hars : r.accepted_response_size < 65536)
    (hmin : cfg.CHAIN_SYNC_RESPONSE_MIN_BLOCKS % 65536 ≤ r.accepted_response_size)
    (hmax : r.accepted_response_size ≤ cfg.CHAIN_SYNC_RESPONSE_MAX_BLOCKS % 65536)
    (hids : ∀ b ∈ r.blocks, b.hash.bytes.length = 32 ∧ b.topoheight < 256 ^ 8) :
    ChainRequest.read cfg (ChainRequest.write r ++ rest) = .ok (r, rest) := by
  rw [ChainRequest.read, ChainRequest.write]
  simp only [List.append_assoc]
  rw [rbind_ok (readU_append_of_lt _ (show r.blocks.length < 256 ^ 1 by norm_num; omega))]
  rw [if_neg (by push_neg; exact ⟨hlen0, hcap⟩)]
  rw [rbind_ok (readCount_append r.blocks _
    (fun x hx rr => blockIdRoundtrip x rr (hids x hx).1 (hids x hx).2))]
  rw [rbind_ok (readU_append_of_lt _ (show r.accepted_response_size < 256 ^ 2 by norm_num; omega))]
  rw [if_neg (by push_neg; exact ⟨hmin, hmax⟩)]

theorem chainResponseRoundtrip (cfg : Config) (r : ChainResponse)
    (rest : Bytes)
    (hcp : ∀ c, r.common_point = some c →
      c.hash.bytes.length = 32 ∧ c.topoheight < 256 ^ 8)
    (hbl : r.blocks.length ≤ 65535)
    (hcap : r.blocks.length ≤ cfg.CHAIN_SYNC_RESPONSE_MAX_BLOCKS % 65536)
    (hb32 : ∀ h ∈ r.blocks, h.bytes.length = 32)
    (hbnd : r.blocks.Nodup)
    (htl : r.top_blocks.length ≤ 255)
    (htcap : r.top_blocks.length ≤ (cfg.CHAIN_SYNC_TOP_BLOCKS * cfg.TIPS_LIMIT) % 256)
    (ht32 : ∀ h ∈ r.top_blocks, h.bytes.length = 32)
    (htnd : r.top_blocks.Nodup)
    (hdisj : ∀ h ∈ r.top_blocks, h ∉ r.blocks) :
    ChainResponse.read cfg (ChainResponse.write r ++ rest) = .ok (r, rest) := by
  rw [ChainResponse.read, ChainResponse.write]
  simp only [List.append_assoc]
  rw [rbind_ok (readOption_write r.common_point _
    (fun c hc rr => commonPointRoundtrip c rr (hcp c hc).1 (hcp c hc).2))]
  rw [rbind_ok (readU_append_of_lt _ (show r.blocks.length < 256 ^ 2 by norm_num; omega))]
  rw [if_neg (by omega)]
  have hblocks := readUniqueHashes_write_ok [] r.blocks []
    (beBytes 1 r.top_blocks.length ++ (writeList writeHash r.top_blocks ++ rest))
    hb32 hbnd (by simp) (by simp)
  rw [List.nil_append] at hblocks
  rw [rbind_ok hblocks]
  rw [rbind_ok (readU_append_of_lt _ (show r.top_blocks.length < 256 ^ 1 by norm_num; omega))]
  rw [if_neg (by omega)]
  have htop := readUniqueHashes_write_ok r.blocks r.top_blocks []
    rest ht32 htnd (by simp) hdisj
  rw [List.nil_append] at htop
  rw [rbind_ok htop]
  simp [ChainResponse.new]

/-- `AddressType` (crypto/address.rs): normal or data-carrying address; the
`DataElement` payload type lives outside the given sources, so the model is
parametric in it. -/
inductive AddressType (D : Type) where
  | Normal : AddressType D
  | Data : D → AddressType D
deriving DecidableEq

/-- `impl Serializer for AddressType`, `write`: discriminant 0 for Normal,
1 followed by the payload for Data. -/
def AddressType.write {D : Type} (dataWrite : D → Bytes) :
    AddressType D → Bytes
  | .Normal => beBytes 1 0
  | .Data d => beBytes 1 1 ++ dataWrite d

/-- `impl Serializer for AddressType`, `read`: a one-byte discriminant
(0 → Normal, 1 → Data with the nested payload capped by
`EXTRA_DATA_LIMIT_SIZE` bytes consumed, measured via `total_read`; anything
else → `InvalidValue`). The cap and the payload reader are external, so both
are parameters. -/
def AddressType.read {D : Type} (limit : Nat) (dataRead : ReadM D) :
    ReadM (AddressType D) := fun bs =>
  match readU 1 bs with
  | .error e => .error e
  | .ok (t, rest) =>
    if t = 0 then .ok (.Normal, rest)
    else if t = 1 then
      match dataRead rest with
      | .error e => .error e
      | .ok (d, rest2) =>
        if rest.length - rest2.length > limit then .error .InvalidSize
        else .ok (.Data d, rest2)
    else .error .InvalidValue

theorem readU_one_cons (b : Nat) (rest : Bytes) :
    readU 1 (b :: rest) = .ok (b, rest) := by
  simp [readU, readChunk, beVal, beBytes]

theorem blockRoundtrip {Tx : Type} (validPoint : Bytes → Bool)
    (txWrite : Tx → Bytes) (txRead : ReadM Tx) (b : Block Tx) (rest : Bytes)
    (hwf : b.header.wf) (hv : validPoint b.header.miner.bytes = true)
    (hcount : b.transactions.length = b.header.txs_hashes.length)
    (htx : ∀ t ∈ b.transactions, ∀ r : Bytes, txRead (txWrite t ++ r) = .ok (t, r)) :
    Block.read validPoint txRead (Block.write txWrite b ++ rest)
      = .ok (b, rest) := by
  rw [Block.read, Block.write]
  simp only [List.append_assoc]
  rw [rbind_ok (headerRoundtrip b.header _ hwf hv)]
  rw [← hcount]
  rw [rbind_ok (readCount_append b.transactions rest htx)]

theorem BlockHeader.get_work_eq (hashFn : Bytes → Hash) (h : BlockHeader)
    (h32 : ∀ bs, (hashFn bs).bytes.length = 32) :
    BlockHeader.get_work hashFn h
      = some ([h.version] ++ beBytes 8 h.height
          ++ (h.get_tips_hash hashFn).bytes ++ (h.get_txs_hash hashFn).bytes) := by
  have hlen : ([h.version] ++ beBytes 8 h.height
      ++ (h.get_tips_hash hashFn).bytes ++ (h.get_txs_hash hashFn).bytes).length
      = 73 := by
    simp [beBytes_length, BlockHeader.get_tips_hash, BlockHeader.get_txs_hash, h32]
  rw [BlockHeader.get_work]
  simp only [HEADER_WORK_SIZE, List.append_assoc] at hlen ⊢
  rw [if_neg (by rw [hlen]; trivial)]

/-- C2: for every header, `get_work()` yields exactly the 73-byte buffer
version(1) ‖ height_be(8) ‖ tips_hash(32) ‖ txs_hash(32), with no
contribution from timestamp, nonce, extra_nonce, or miner, and the internal
length-mismatch panic branch (modelled as `none`) is unreachable. -/
theorem claim_C2 (hashFn : Bytes → Hash) (h : BlockHeader)
    (h32 : ∀ bs, (hashFn bs).bytes.length = 32) :
    BlockHeader.get_work hashFn h
      = some ([h.version] ++ beBytes 8 h.height
          ++ (h.get_tips_hash hashFn).bytes ++ (h.get_txs_hash hashFn).bytes)
    ∧ (∀ bytes, BlockHeader.get_work hashFn h = some bytes → bytes.length = 73)
    ∧ (∀ t n en m, BlockHeader.get_work hashFn
        { h with timestamp := t, nonce := n, extra_nonce := en, miner := m }
        = BlockHeader.get_work hashFn h) := by
  have hlen : ([h.version] ++ beBytes 8 h.height
      ++ (h.get_tips_hash hashFn).bytes ++ (h.get_txs_hash hashFn).bytes).length
      = 73 := by
    simp [beBytes_length, BlockHeader.get_tips_hash, BlockHeader.get_txs_hash, h32]
  have hwork := BlockHeader.get_work_eq hashFn h h32
  refine ⟨hwork, ?_, ?_⟩
  · intro bytes hb
    rw [hwork] at hb
    cases hb
    exact hlen
  · intro t n en m
    simp [BlockHeader.get_work, BlockHeader.get_tips_hash,
      BlockHeader.get_txs_hash]

/-- C3: the header's identity hash (the Hashable impl) and `get_pow_hash`
are the same digest of the same 120-byte buffer work_hash(32) ‖
timestamp_be(16) ‖ nonce_be(8) ‖ extra_nonce(32) ‖ miner(32). -/
theorem claim_C3 (hashFn : Bytes → Hash) (h : BlockHeader)
    (h32 : ∀ bs, (hashFn bs).bytes.length = 32)
    (hen : h.extra_nonce.length = 32)
    (hm : h.miner.bytes.length = 32) :
    BlockHeader.identityHash hashFn h = BlockHeader.get_pow_hash hashFn h
    ∧ (∃ wh, BlockHeader.get_work_hash hashFn h = some wh ∧
        BlockHeader.get_serialized_header hashFn h
          = some (wh.bytes ++ beBytes 16 h.timestamp ++ beBytes 8 h.nonce
              ++ h.extra_nonce ++ h.miner.bytes))
    ∧ (∀ bytes, BlockHeader.get_serialized_header hashFn h = some bytes →
        bytes.length = 120) := by
  have hbuf := BlockHeader.get_work_eq hashFn h h32
  set buf := [h.version] ++ beBytes 8 h.height
      ++ (h.get_tips_hash hashFn).bytes ++ (h.get_txs_hash hashFn).bytes with hbufdef
  have hwh : BlockHeader.get_work_hash hashFn h = some (hashFn buf) := by
    rw [BlockHeader.get_work_hash, hbuf]
    rfl
  have hslen : ((hashFn buf).bytes ++ beBytes 16 h.timestamp
      ++ beBytes 8 h.nonce ++ h.extra_nonce ++ h.miner.bytes).length = 120 := by
    simp [beBytes_length, h32, hen, hm]
  have hser : BlockHeader.get_serialized_header hashFn h
      = some ((hashFn buf).bytes ++ beBytes 16 h.timestamp
          ++ beBytes 8 h.nonce ++ h.extra_nonce ++ h.miner.bytes) := by
    rw [BlockHeader.get_serialized_header, hwh]
    simp only [BLOCK_WORK_SIZE, List.append_assoc] at hslen ⊢
    rw [if_neg (by rw [hslen]; trivial)]
  refine ⟨rfl, ⟨hashFn buf, hwh, hser⟩, ?_⟩
  intro bytes hb
  rw [hser] at hb
  cases hb
  exact hslen

/-- C4: two headers agreeing on version, height, tips and txs_hashes have
the same work hash, whatever their nonce, timestamp, extra_nonce, miner. -/
theorem claim_C4 (hashFn : Bytes → Hash) (h h' : BlockHeader)
    (hv : h.version = h'.version) (hh : h.height = h'.height)
    (ht : h.tips = h'.tips) (hx : h.txs_hashes = h'.txs_hashes) :
    BlockHeader.get_work_hash hashFn h = BlockHeader.get_work_hash hashFn h' := by
  simp [BlockHeader.get_work_hash, BlockHeader.get_work,
    BlockHeader.get_tips_hash, BlockHeader.get_txs_hash, hv, hh, ht, hx]

/-- C7: `BlockHeader::new` sets nonce to zero and copies every argument
verbatim, with no validation and no failure whatever the list lengths. -/
theorem claim_C7 (version height timestamp : Nat) (tips : List Hash)
    (extra_nonce : Bytes) (miner : PublicKey) (txs_hashes : List Hash) :
    (BlockHeader.new version height timestamp tips extra_nonce miner
        txs_hashes).nonce = 0
    ∧ (BlockHeader.new version height timestamp tips extra_nonce miner
        txs_hashes).version = version
    ∧ (BlockHeader.new version height timestamp tips extra_nonce miner
        txs_hashes).height = height
    ∧ (BlockHeader.new version height timestamp tips extra_nonce miner
        txs_hashes).timestamp = timestamp
    ∧ (BlockHeader.new version height timestamp tips extra_nonce miner
        txs_hashes).tips = tips
    ∧ (BlockHeader.new version height timestamp tips extra_nonce miner
        txs_hashes).extra_nonce = extra_nonce
    ∧ (BlockHeader.new version height timestamp tips extra_nonce miner
        txs_hashes).miner = miner
    ∧ (BlockHeader.new version height timestamp tips extra_nonce miner
        txs_hashes).txs_hashes = txs_hashes :=
  ⟨rfl, rfl, rfl, rfl, rfl, rfl, rfl, rfl⟩

/-- C10: `get_common_point` is consuming: it returns the stored common
point and empties the field, so a second call returns `None`; `blocks` and
`top_blocks` are untouched. -/
theorem claim_C10 (r : ChainResponse) :
    (ChainResponse.get_common_point r).1 = r.common_point
    ∧ (ChainResponse.get_common_point
        (ChainResponse.get_common_point r).2).1 = none
    ∧ (ChainResponse.get_common_point r).2.blocks = r.blocks
    ∧ (ChainResponse.get_common_point r).2.top_blocks = r.top_blocks :=
  ⟨rfl, rfl, rfl, rfl⟩

/-- C9: a successfully decoded `Block` always has exactly as many
transactions as its header lists transaction hashes, for any transaction
reader; `Block::new` itself imposes no such constraint. -/
theorem claim_C9 {Tx : Type} (validPoint : Bytes → Bool) (txRead : ReadM Tx)
    (bs rest : Bytes) (b : Block Tx)
    (hok : Block.read validPoint txRead bs = .ok (b, rest)) :
    b.transactions.length = b.header.txs_hashes.length
    ∧ ∀ (hdr : BlockHeader) (txs : List Tx),
        (Block.new hdr txs).header = hdr
        ∧ (Block.new hdr txs).transactions = txs := by
  constructor
  · rw [Block.read] at hok
    obtain ⟨hdr, mid, hh, hok⟩ := rbind_ok_inv hok
    obtain ⟨txs, mid2, htx, hok⟩ := rbind_ok_inv hok
    simp only [Except.ok.injEq, Prod.mk.injEq] at hok
    obtain ⟨h1, h2⟩ := hok
    subst h1
    simpa using readCount_length htx
  · intro hdr txs
    exact ⟨rfl, rfl⟩

/-- A concrete placeholder content hash used to instantiate witnesses. -/
def hashFn0 : Bytes → Hash := fun _ => { bytes := List.replicate 32 0 }

/-- A concrete 32-byte public key used by witnesses. -/
def pk0 : PublicKey := { bytes := List.replicate 32 0 }

/-- A concrete 32-byte hash used by witnesses. -/
def hash0 : Hash := { bytes := List.replicate 32 0 }

/-- A second, distinct 32-byte hash used by witnesses. -/
def hash1 : Hash := { bytes := 1 :: List.replicate 31 0 }

/-- A concrete header used by witnesses. -/
def hdr0 : BlockHeader :=
  { version := 0, tips := [], timestamp := 0, height := 0, nonce := 0,
    extra_nonce := List.replicate 32 0, miner := pk0, txs_hashes := [] }

/-- A concrete configuration (the deployed constants of the real daemon
configuration satisfy the same width bounds). -/
def cfg0 : Config :=
  { CHAIN_SYNC_REQUEST_MAX_BLOCKS := 64,
    CHAIN_SYNC_RESPONSE_MIN_BLOCKS := 512,
    CHAIN_SYNC_RESPONSE_MAX_BLOCKS := 4096,
    CHAIN_SYNC_TOP_BLOCKS := 10,
    TIPS_LIMIT := 3 }

/-- Witness for C2 at a concrete hash function and header. -/
theorem claim_C2_witness :
    (∀ bs, (hashFn0 bs).bytes.length = 32)
    ∧ (BlockHeader.get_work hashFn0 hdr0
        = some ([hdr0.version] ++ beBytes 8 hdr0.height
            ++ (hdr0.get_tips_hash hashFn0).bytes
            ++ (hdr0.get_txs_hash hashFn0).bytes)
      ∧ (∀ bytes, BlockHeader.get_work hashFn0 hdr0 = some bytes →
          bytes.length = 73)
      ∧ (∀ t n en m, BlockHeader.get_work hashFn0
          { hdr0 with timestamp := t, nonce := n, extra_nonce := en, miner := m }
          = BlockHeader.get_work hashFn0 hdr0)) :=
  ⟨fun _ => by simp [hashFn0],
   claim_C2 hashFn0 hdr0 (fun _ => by simp [hashFn0])⟩

/-- Witness for C3 at a concrete hash function and header. -/
theorem claim_C3_witness :
    ((∀ bs, (hashFn0 bs).bytes.length = 32)
      ∧ hdr0.extra_nonce.length = 32 ∧ hdr0.miner.bytes.length = 32)
    ∧ (BlockHeader.identityHash hashFn0 hdr0
        = BlockHeader.get_pow_hash hashFn0 hdr0
      ∧ (∃ wh, BlockHeader.get_work_hash hashFn0 hdr0 = some wh ∧
          BlockHeader.get_serialized_header hashFn0 hdr0
            = some (wh.bytes ++ beBytes 16 hdr0.timestamp
                ++ beBytes 8 hdr0.nonce ++ hdr0.extra_nonce
                ++ hdr0.miner.bytes))
      ∧ (∀ bytes, BlockHeader.get_serialized_header hashFn0 hdr0 = some bytes →
          bytes.length = 120)) :=
  ⟨⟨fun _ => by simp [hashFn0], by simp [hdr0], by simp [hdr0, pk0]⟩,
   claim_C3 hashFn0 hdr0 (fun _ => by simp [hashFn0]) (by simp [hdr0])
     (by simp [hdr0, pk0])⟩

/-- Witness for C4: two headers differing only in nonce, timestamp,
extra_nonce and miner. -/
theorem claim_C4_witness :
    BlockHeader.get_work_hash hashFn0 hdr0
      = BlockHeader.get_work_hash hashFn0
          { hdr0 with nonce := 5, timestamp := 9,
                      extra_nonce := List.replicate 32 1,
                      miner := { bytes := List.replicate 32 2 } } :=
  claim_C4 hashFn0 hdr0 _ rfl rfl rfl rfl

/-- Witness for C9: a concrete block decode with an empty transaction
list. -/
theorem claim_C9_witness :
    Block.read (fun _ => true) (readU 1) (BlockHeader.write hdr0 ++ [])
        = .ok (Block.new hdr0 ([] : List Nat), [])
    ∧ ((Block.new hdr0 ([] : List Nat)).transactions.length
        = (Block.new hdr0 ([] : List Nat)).header.txs_hashes.length
      ∧ ∀ (hdr : BlockHeader) (txs : List Nat),
          (Block.new hdr txs).header = hdr
          ∧ (Block.new hdr txs).transactions = txs) := by
  have hok : Block.read (fun _ => true) (readU 1) (BlockHeader.write hdr0 ++ [])
      = .ok (Block.new hdr0 ([] : List Nat), []) := by rfl
  exact ⟨hok, claim_C9 (fun _ => true) (readU 1) _ [] _ hok⟩

/-- C8: the `AddressType` decoder reads one discriminant byte — anything
other than 0 or 1 is `InvalidValue`; with discriminant 1, a nested payload
consuming more than the size cap is `InvalidSize`, and otherwise the Data
variant is returned (0 yields Normal). Stated for any payload reader and
any cap. -/
theorem claim_C8 {D : Type} (limit : Nat) (dataRead : ReadM D)
    (b : Nat) (rest : Bytes) :
    (b ≠ 0 → b ≠ 1 →
      AddressType.read limit dataRead (b :: rest) = .error .InvalidValue)
    ∧ (∀ d rest2, dataRead rest = .ok (d, rest2) →
        limit < rest.length - rest2.length →
        AddressType.read limit dataRead (1 :: rest) = .error .InvalidSize)
    ∧ (∀ d rest2, dataRead rest = .ok (d, rest2) →
        rest.length - rest2.length ≤ limit →
        AddressType.read limit dataRead (1 :: rest) = .ok (.Data d, rest2))
    ∧ AddressType.read limit dataRead (0 :: rest) = .ok (.Normal, rest) := by
  refine ⟨?_, ?_, ?_, ?_⟩
  · intro hb0 hb1
    rw [AddressType.read, readU_one_cons]
    simp [hb0, hb1]
  · intro d rest2 hd hlim
    rw [AddressType.read, readU_one_cons]
    simp only [one_ne_zero, if_false, if_true, hd]
    rw [if_pos (by omega)]
  · intro d rest2 hd hlim
    rw [AddressType.read, readU_one_cons]
    simp only [one_ne_zero, if_false, if_true, hd]
    rw [if_neg (by omega)]
  · rw [AddressType.read, readU_one_cons]
    simp

/-- Witness for C8: concrete discriminants 7, 1 and 0 with a one-byte
payload reader, under a zero and a generous cap. -/
theorem claim_C8_witness :
    AddressType.read 1024 (readU 1) (7 :: [5]) = .error .InvalidValue
    ∧ AddressType.read 0 (readU 1) (1 :: [5]) = .error .InvalidSize
    ∧ AddressType.read 1024 (readU 1) (1 :: [5])
        = .ok (AddressType.Data 5, [])
    ∧ AddressType.read 1024 (readU 1) (0 :: [5])
        = .ok (AddressType.Normal, [5]) :=
  ⟨(claim_C8 1024 (readU 1) 7 [5]).1 (by decide) (by decide),
   (claim_C8 0 (readU 1) 1 [5]).2.1 5 [] (by rfl) (by decide),
   (claim_C8 1024 (readU 1) 1 [5]).2.2.1 5 [] (by rfl) (by decide),
   (claim_C8 1024 (readU 1) 0 [5]).2.2.2⟩

/-- Full evaluation of `ChainRequest::read` on a well-formed wire image:
the declared checkpoint list and response size are validated, nothing is
clamped. -/
theorem ChainRequest.read_eval (cfg : Config) (l : List BlockId) (s : Nat)
    (rest : Bytes)
    (hreq : cfg.CHAIN_SYNC_REQUEST_MAX_BLOCKS ≤ 255)
    (hminw : cfg.CHAIN_SYNC_RESPONSE_MIN_BLOCKS ≤ 65535)
    (hmaxw : cfg.CHAIN_SYNC_RESPONSE_MAX_BLOCKS ≤ 65535)
    (hl : l.length ≤ 255) (hs : s ≤ 65535)
    (hids : ∀ b ∈ l, b.hash.bytes.length = 32 ∧ b.topoheight < 256 ^ 8) :
    ChainRequest.read cfg
        (beBytes 1 l.length ++ (writeList BlockId.write l
          ++ (beBytes 2 s ++ rest)))
      = if l.length = 0 ∨ cfg.CHAIN_SYNC_REQUEST_MAX_BLOCKS < l.length then
          .error .InvalidValue
        else if s < cfg.CHAIN_SYNC_RESPONSE_MIN_BLOCKS
            ∨ cfg.CHAIN_SYNC_RESPONSE_MAX_BLOCKS < s then
          .error .InvalidValue
        else .ok ({ blocks := l, accepted_response_size := s }, rest) := by
  have hm1 : cfg.CHAIN_SYNC_REQUEST_MAX_BLOCKS % 256
      = cfg.CHAIN_SYNC_REQUEST_MAX_BLOCKS := Nat.mod_eq_of_lt (by omega)
  have hm2 : cfg.CHAIN_SYNC_RESPONSE_MIN_BLOCKS % 65536
      = cfg.CHAIN_SYNC_RESPONSE_MIN_BLOCKS := Nat.mod_eq_of_lt (by omega)
  have hm3 : cfg.CHAIN_SYNC_RESPONSE_MAX_BLOCKS % 65536
      = cfg.CHAIN_SYNC_RESPONSE_MAX_BLOCKS := Nat.mod_eq_of_lt (by omega)
  rw [ChainRequest.read]
  rw [rbind_ok (readU_append_of_lt _ (show l.length < 256 ^ 1 by norm_num; omega))]
  rw [hm1]
  by_cases h0 : l.length = 0 ∨ cfg.CHAIN_SYNC_REQUEST_MAX_BLOCKS < l.length
  · rw [if_pos h0, if_pos h0]
  · rw [if_neg h0, if_neg h0]
    rw [rbind_ok (readCount_append l _
      (fun x hx rr => blockIdRoundtrip x rr (hids x hx).1 (hids x hx).2))]
    rw [rbind_ok (readU_append_of_lt _ (show s < 256 ^ 2 by norm_num; omega))]
    rw [hm2, hm3]

/-- C5: `ChainRequest` decoding fails with `InvalidValue` exactly when the
declared checkpoint count is zero or above the request cap or the accepted
response size is outside the configured bounds; otherwise it succeeds with
the values as sent (no clamping). -/
theorem claim_C5 (cfg : Config) (l : List BlockId) (s : Nat) (rest : Bytes)
    (hreq : cfg.CHAIN_SYNC_REQUEST_MAX_BLOCKS ≤ 255)
    (hminw : cfg.CHAIN_SYNC_RESPONSE_MIN_BLOCKS ≤ 65535)
    (hmaxw : cfg.CHAIN_SYNC_RESPONSE_MAX_BLOCKS ≤ 65535)
    (hl : l.length ≤ 255) (hs : s ≤ 65535)
    (hids : ∀ b ∈ l, b.hash.bytes.length = 32 ∧ b.topoheight < 256 ^ 8) :
    (ChainRequest.read cfg
        (beBytes 1 l.length ++ (writeList BlockId.write l
          ++ (beBytes 2 s ++ rest)))
        = .error .InvalidValue
      ↔ (l.length = 0 ∨ cfg.CHAIN_SYNC_REQUEST_MAX_BLOCKS < l.length
          ∨ s < cfg.CHAIN_SYNC_RESPONSE_MIN_BLOCKS
          ∨ cfg.CHAIN_SYNC_RESPONSE_MAX_BLOCKS < s))
    ∧ (¬(l.length = 0 ∨ cfg.CHAIN_SYNC_REQUEST_MAX_BLOCKS < l.length
          ∨ s < cfg.CHAIN_SYNC_RESPONSE_MIN_BLOCKS
          ∨ cfg.CHAIN_SYNC_RESPONSE_MAX_BLOCKS < s) →
        ChainRequest.read cfg
          (beBytes 1 l.length ++ (writeList BlockId.write l
            ++ (beBytes 2 s ++ rest)))
          = .ok ({ blocks := l, accepted_response_size := s }, rest)) := by
  have heval := ChainRequest.read_eval cfg l s rest hreq hminw hmaxw hl hs hids
  rw [heval]
  constructor
  · by_cases h0 : l.length = 0 ∨ cfg.CHAIN_SYNC_REQUEST_MAX_BLOCKS < l.length
    · rw [if_pos h0]
      simp only [true_iff]
      tauto
    · rw [if_neg h0]
      by_cases h1 : s < cfg.CHAIN_SYNC_RESPONSE_MIN_BLOCKS
          ∨ cfg.CHAIN_SYNC_RESPONSE_MAX_BLOCKS < s
      · rw [if_pos h1]
        simp only [true_iff]
        tauto
      · rw [if_neg h1]
        simp only [reduceCtorEq, false_iff]
        tauto
  · intro hok
    push_neg at hok
    obtain ⟨ha, hb, hc, hd⟩ := hok
    rw [if_neg (by push_neg; exact ⟨ha, hb⟩), if_neg (by push_neg; exact ⟨hc, hd⟩)]

/-- Witness for C5: a single-checkpoint request under the deployed bounds,
checked both at an in-range and at an out-of-range response size. -/
theorem claim_C5_witness :
    (ChainRequest.read cfg0
        (beBytes 1 [BlockId.mk hash0 0].length
          ++ (writeList BlockId.write [BlockId.mk hash0 0]
            ++ (beBytes 2 512 ++ [])))
        = .error .InvalidValue
      ↔ ([BlockId.mk hash0 0].length = 0
          ∨ cfg0.CHAIN_SYNC_REQUEST_MAX_BLOCKS < [BlockId.mk hash0 0].length
          ∨ 512 < cfg0.CHAIN_SYNC_RESPONSE_MIN_BLOCKS
          ∨ cfg0.CHAIN_SYNC_RESPONSE_MAX_BLOCKS < 512))
    ∧ ChainRequest.read cfg0
        (beBytes 1 [BlockId.mk hash0 0].length
          ++ (writeList BlockId.write [BlockId.mk hash0 0]
            ++ (beBytes 2 512 ++ [])))
        = .ok ({ blocks := [BlockId.mk hash0 0],
                 accepted_response_size := 512 }, []) := by
  have h := claim_C5 cfg0 [BlockId.mk hash0 0] 512 [] (by decide) (by decide)
    (by decide) (by decide) (by decide)
    (by intro b hb; simp at hb; subst hb; exact ⟨by simp [hash0], by decide⟩)
  exact ⟨h.1, h.2 (by decide)⟩

/-- C6: `ChainResponse` decoding reads `blocks` first, rejecting an
oversized declared count or a repeated hash; then `top_blocks`, rejecting
an oversized declared count or a hash repeated within `top_blocks` or
already present in `blocks`; every successful decode yields duplicate-free,
disjoint sets. -/
theorem claim_C6 (cfg : Config)
    (hmaxw : cfg.CHAIN_SYNC_RESPONSE_MAX_BLOCKS ≤ 65535)
    (htopw : cfg.CHAIN_SYNC_TOP_BLOCKS * cfg.TIPS_LIMIT ≤ 255) :
    (∀ bs r rest, ChainResponse.read cfg bs = .ok (r, rest) →
      r.blocks.Nodup ∧ r.top_blocks.Nodup ∧ ∀ x ∈ r.top_blocks, x ∉ r.blocks)
    ∧ (∀ cp n tail,
        (∀ c, cp = some c → c.hash.bytes.length = 32 ∧ c.topoheight < 256 ^ 8) →
        n ≤ 65535 → cfg.CHAIN_SYNC_RESPONSE_MAX_BLOCKS < n →
        ChainResponse.read cfg
          (writeOption CommonPoint.write cp ++ (beBytes 2 n ++ tail))
          = .error .InvalidValue)
    ∧ (∀ cp l tail,
        (∀ c, cp = some c → c.hash.bytes.length = 32 ∧ c.topoheight < 256 ^ 8) →
        (∀ x ∈ l, x.bytes.length = 32) → ¬List.Nodup l →
        l.length ≤ cfg.CHAIN_SYNC_RESPONSE_MAX_BLOCKS →
        ChainResponse.read cfg
          (writeOption CommonPoint.write cp ++ (beBytes 2 l.length
            ++ (writeList writeHash l ++ tail)))
          = .error .InvalidValue)
    ∧ (∀ cp l m tail,
        (∀ c, cp = some c → c.hash.bytes.length = 32 ∧ c.topoheight < 256 ^ 8) →
        (∀ x ∈ l, x.bytes.length = 32) → List.Nodup l →
        l.length ≤ cfg.CHAIN_SYNC_RESPONSE_MAX_BLOCKS →
        m ≤ 255 → cfg.CHAIN_SYNC_TOP_BLOCKS * cfg.TIPS_LIMIT < m →
        ChainResponse.read cfg
          (writeOption CommonPoint.write cp ++ (beBytes 2 l.length
            ++ (writeList writeHash l ++ (beBytes 1 m ++ tail))))
          = .error .InvalidValue)
    ∧ (∀ cp l t tail,
        (∀ c, cp = some c → c.hash.bytes.length = 32 ∧ c.topoheight < 256 ^ 8) →
        (∀ x ∈ l, x.bytes.length = 32) → List.Nodup l →
        l.length ≤ cfg.CHAIN_SYNC_RESPONSE_MAX_BLOCKS →
        (∀ x ∈ t, x.bytes.length = 32) →
        t.length ≤ cfg.CHAIN_SYNC_TOP_BLOCKS * cfg.TIPS_LIMIT →
        ¬(List.Nodup t ∧ ∀ x ∈ t, x ∉ l) →
        ChainResponse.read cfg
          (writeOption CommonPoint.write cp ++ (beBytes 2 l.length
            ++ (writeList writeHash l ++ (beBytes 1 t.length
              ++ (writeList writeHash t ++ tail)))))
          = .error .InvalidValue) := by
  have hm3 : cfg.CHAIN_SYNC_RESPONSE_MAX_BLOCKS % 65536
      = cfg.CHAIN_SYNC_RESPONSE_MAX_BLOCKS := Nat.mod_eq_of_lt (by omega)
  have hm4 : (cfg.CHAIN_SYNC_TOP_BLOCKS * cfg.TIPS_LIMIT) % 256
      = cfg.CHAIN_SYNC_TOP_BLOCKS * cfg.TIPS_LIMIT := Nat.mod_eq_of_lt (by omega)
  refine ⟨fun bs r rest h => ChainResponse.read_ok_inv h, ?_, ?_, ?_, ?_⟩
  · intro cp n tail hcp hn hcap
    rw [ChainResponse.read]
    rw [rbind_ok (readOption_write cp _
      (fun c hc rr => commonPointRoundtrip c rr (hcp c hc).1 (hcp c hc).2))]
    rw [rbind_ok (readU_append_of_lt _ (show n < 256 ^ 2 by norm_num; omega))]
    rw [if_pos (by rw [hm3]; omega)]
  · intro cp l tail hcp h32 hnd hcap
    rw [ChainResponse.read]
    rw [rbind_ok (readOption_write cp _
      (fun c hc rr => commonPointRoundtrip c rr (hcp c hc).1 (hcp c hc).2))]
    rw [rbind_ok (readU_append_of_lt _ (show l.length < 256 ^ 2 by norm_num; omega))]
    rw [if_neg (by rw [hm3]; omega)]
    rw [rbind_error (readUniqueHashes_write_error [] l [] tail
      h32 (by intro hh; exact hnd hh.1))]
  · intro cp l m tail hcp h32 hnd hcap hm hover
    rw [ChainResponse.read]
    rw [rbind_ok (readOption_write cp _
      (fun c hc rr => commonPointRoundtrip c rr (hcp c hc).1 (hcp c hc).2))]
    rw [rbind_ok (readU_append_of_lt _ (show l.length < 256 ^ 2 by norm_num; omega))]
    rw [if_neg (by rw [hm3]; omega)]
    have hbl := readUniqueHashes_write_ok [] l []
      (beBytes 1 m ++ tail) h32 hnd (by simp) (by simp)
    rw [List.nil_append] at hbl
    rw [rbind_ok hbl]
    rw [rbind_ok (readU_append_of_lt _ (show m < 256 ^ 1 by norm_num; omega))]
    rw [if_pos (by rw [hm4]; omega)]
  · intro cp l t tail hcp h32 hnd hcap h32t htcap hbad
    rw [ChainResponse.read]
    rw [rbind_ok (readOption_write cp _
      (fun c hc rr => commonPointRoundtrip c rr (hcp c hc).1 (hcp c hc).2))]
    rw [rbind_ok (readU_append_of_lt _ (show l.length < 256 ^ 2 by norm_num; omega))]
    rw [if_neg (by rw [hm3]; omega)]
    have hbl := readUniqueHashes_write_ok [] l []
      (beBytes 1 t.length ++ (writeList writeHash t ++ tail)) h32 hnd
      (by simp) (by simp)
    rw [List.nil_append] at hbl
    rw [rbind_ok hbl]
    rw [rbind_ok (readU_append_of_lt _ (show t.length < 256 ^ 1 by norm_num; omega))]
    rw [if_neg (by rw [hm4]; omega)]
    rw [rbind_error (readUniqueHashes_write_error l t [] tail
      h32t (by intro hh; exact hbad ⟨hh.1, hh.2.2⟩))]

/-- Witness for C6: a concrete successful decode (disjoint singleton sets),
a concrete duplicate inside `blocks`, and a concrete `top_blocks` hash
already present in `blocks`, all under the deployed bounds. -/
theorem claim_C6_witness :
    ((ChainResponse.new none [hash0] [hash1]).blocks.Nodup
      ∧ (ChainResponse.new none [hash0] [hash1]).top_blocks.Nodup
      ∧ ∀ x ∈ (ChainResponse.new none [hash0] [hash1]).top_blocks,
          x ∉ (ChainResponse.new none [hash0] [hash1]).blocks)
    ∧ ChainResponse.read cfg0
        (writeOption CommonPoint.write none
          ++ (beBytes 2 ([hash0, hash0] : List Hash).length
            ++ (writeList writeHash [hash0, hash0] ++ [])))
        = .error .InvalidValue
    ∧ ChainResponse.read cfg0
        (writeOption CommonPoint.write none
          ++ (beBytes 2 ([hash0] : List Hash).length
            ++ (writeList writeHash [hash0]
              ++ (beBytes 1 ([hash0] : List Hash).length
                ++ (writeList writeHash [hash0] ++ [])))))
        = .error .InvalidValue := by
  have h := claim_C6 cfg0 (by decide) (by decide)
  refine ⟨?_, ?_, ?_⟩
  · refine h.1 (writeOption CommonPoint.write none
      ++ (beBytes 2 1 ++ (writeHash hash0 ++ (beBytes 1 1
        ++ (writeHash hash1 ++ [])))))
      (ChainResponse.new none [hash0] [hash1]) [] ?_
    rfl
  · exact h.2.2.1 none [hash0, hash0] [] (by intro c hc; cases hc)
      (by decide) (by decide) (by decide)
  · exact h.2.2.2.2 none [hash0] [hash0] [] (by intro c hc; cases hc)
      (by decide) (by decide) (by decide) (by decide) (by decide) (by decide)

/-- C1: decode ∘ encode is the identity for every structurally valid
BlockHeader (up to 255 tips, up to 65535 transaction hashes), Block,
BlockId, ChainRequest, ChainResponse and CommonPoint, the edge cases of
empty and maximum-length collections included in the quantification. -/
theorem claim_C1 :
    (∀ (validPoint : Bytes → Bool) (h : BlockHeader) (rest : Bytes),
      h.wf → validPoint h.miner.bytes = true →
      BlockHeader.read validPoint (BlockHeader.write h ++ rest)
        = .ok (h, rest))
    ∧ (∀ (Tx : Type) (validPoint : Bytes → Bool) (txWrite : Tx → Bytes)
        (txRead : ReadM Tx) (b : Block Tx) (rest : Bytes),
        b.header.wf → validPoint b.header.miner.bytes = true →
        b.transactions.length = b.header.txs_hashes.length →
        (∀ t ∈ b.transactions, ∀ r : Bytes,
          txRead (txWrite t ++ r) = .ok (t, r)) →
        Block.read validPoint txRead (Block.write txWrite b ++ rest)
          = .ok (b, rest))
    ∧ (∀ (b : BlockId) (rest : Bytes),
        b.hash.bytes.length = 32 → b.topoheight < 256 ^ 8 →
        BlockId.read (BlockId.write b ++ rest) = .ok (b, rest))
    ∧ (∀ (c : CommonPoint) (rest : Bytes),
        c.hash.bytes.length = 32 → c.topoheight < 256 ^ 8 →
        CommonPoint.read (CommonPoint.write c ++ rest) = .ok (c, rest))
    ∧ (∀ (cfg : Config) (r : ChainRequest) (rest : Bytes),
        cfg.CHAIN_SYNC_REQUEST_MAX_BLOCKS ≤ 255 →
        cfg.CHAIN_SYNC_RESPONSE_MIN_BLOCKS ≤ 65535 →
        cfg.CHAIN_SYNC_RESPONSE_MAX_BLOCKS ≤ 65535 →
        r.blocks.length ≠ 0 →
        r.blocks.length ≤ cfg.CHAIN_SYNC_REQUEST_MAX_BLOCKS →
        cfg.CHAIN_SYNC_RESPONSE_MIN_BLOCKS ≤ r.accepted_response_size →
        r.accepted_response_size ≤ cfg.CHAIN_SYNC_RESPONSE_MAX_BLOCKS →
        (∀ b ∈ r.blocks, b.hash.bytes.length = 32 ∧ b.topoheight < 256 ^ 8) →
        ChainRequest.read cfg (ChainRequest.write r ++ rest) = .ok (r, rest))
    ∧ (∀ (cfg : Config) (r : ChainResponse) (rest : Bytes),
        cfg.CHAIN_SYNC_RESPONSE_MAX_BLOCKS ≤ 65535 →
        cfg.CHAIN_SYNC_TOP_BLOCKS * cfg.TIPS_LIMIT ≤ 255 →
        (∀ c, r.common_point = some c →
          c.hash.bytes.length = 32 ∧ c.topoheight < 256 ^ 8) →
        r.blocks.length ≤ cfg.CHAIN_SYNC_RESPONSE_MAX_BLOCKS →
        (∀ x ∈ r.blocks, x.bytes.length = 32) → r.blocks.Nodup →
        r.top_blocks.length ≤ cfg.CHAIN_SYNC_TOP_BLOCKS * cfg.TIPS_LIMIT →
        (∀ x ∈ r.top_blocks, x.bytes.length = 32) → r.top_blocks.Nodup →
        (∀ x ∈ r.top_blocks, x ∉ r.blocks) →
        ChainResponse.read cfg (ChainResponse.write r ++ rest)
          = .ok (r, rest)) := by
  refine ⟨?_, ?_, ?_, ?_, ?_, ?_⟩
  · exact fun validPoint h rest hwf hv => headerRoundtrip h rest hwf hv
  · exact fun Tx validPoint txWrite txRead b rest hwf hv hc htx =>
      blockRoundtrip validPoint txWrite txRead b rest hwf hv hc htx
  · exact fun b rest h1 h2 => blockIdRoundtrip b rest h1 h2
  · exact fun c rest h1 h2 => commonPointRoundtrip c rest h1 h2
  · intro cfg r rest hreq hminw hmaxw hne hcap hmin hmax hids
    refine chainRequestRoundtrip cfg r rest hne (by omega) ?_ (by omega) ?_ ?_ hids
    · rw [Nat.mod_eq_of_lt (show cfg.CHAIN_SYNC_REQUEST_MAX_BLOCKS < 256 by omega)]
      exact hcap
    · rw [Nat.mod_eq_of_lt (show cfg.CHAIN_SYNC_RESPONSE_MIN_BLOCKS < 65536 by omega)]
      exact hmin
    · rw [Nat.mod_eq_of_lt (show cfg.CHAIN_SYNC_RESPONSE_MAX_BLOCKS < 65536 by omega)]
      exact hmax
  · intro cfg r rest hmaxw htopw hcp hcap h32 hnd htcap ht32 htnd hdisj
    refine chainResponseRoundtrip cfg r rest hcp (by omega) ?_ h32 hnd
      (by omega) ?_ ht32 htnd hdisj
    · rw [Nat.mod_eq_of_lt (show cfg.CHAIN_SYNC_RESPONSE_MAX_BLOCKS < 65536 by omega)]
      exact hcap
    · rw [Nat.mod_eq_of_lt (show cfg.CHAIN_SYNC_TOP_BLOCKS * cfg.TIPS_LIMIT < 256 by omega)]
      exact htcap

/-- Witness for C1: concrete round trips for all six message types. -/
theorem claim_C1_witness :
    BlockHeader.read (fun _ => true) (BlockHeader.write hdr0 ++ [])
        = .ok (hdr0, [])
    ∧ Block.read (fun _ => true) (readU 1)
        (Block.write (fun n => [n]) (Block.new hdr0 ([] : List Nat)) ++ [])
        = .ok (Block.new hdr0 ([] : List Nat), [])
    ∧ BlockId.read (BlockId.write (BlockId.mk hash0 0) ++ [])
        = .ok (BlockId.mk hash0 0, [])
    ∧ CommonPoint.read (CommonPoint.write (CommonPoint.mk hash0 0) ++ [])
        = .ok (CommonPoint.mk hash0 0, [])
    ∧ ChainRequest.read cfg0
        (ChainRequest.write (ChainRequest.mk [BlockId.mk hash0 0] 512) ++ [])
        = .ok (ChainRequest.mk [BlockId.mk hash0 0] 512, [])
    ∧ ChainResponse.read cfg0
        (ChainResponse.write (ChainResponse.new none [hash0] [hash1]) ++ [])
        = .ok (ChainResponse.new none [hash0] [hash1], []) := by
  refine ⟨?_, ?_, ?_, ?_, ?_, ?_⟩
  · exact claim_C1.1 (fun _ => true) hdr0 [] (by simp only [BlockHeader.wf]; decide) rfl
  · exact claim_C1.2.1 Nat (fun _ => true) (fun n => [n]) (readU 1)
      (Block.new hdr0 []) [] (by simp only [BlockHeader.wf]; decide) rfl rfl
      (by intro t ht r; simp [Block.new] at ht)
  · exact claim_C1.2.2.1 (BlockId.mk hash0 0) [] (by decide) (by decide)
  · exact claim_C1.2.2.2.1 (CommonPoint.mk hash0 0) [] (by decide) (by decide)
  · exact claim_C1.2.2.2.2.1 cfg0 (ChainRequest.mk [BlockId.mk hash0 0] 512)
      [] (by decide) (by decide) (by decide) (by decide) (by decide)
      (by decide) (by decide)
      (by intro b hb; simp at hb; subst hb; exact ⟨by decide, by decide⟩)
  · exact claim_C1.2.2.2.2.2 cfg0 (ChainResponse.new none [hash0] [hash1])
      [] (by decide) (by decide) (by intro c hc; cases hc) (by decide)
      (by decide) (by decide) (by decide) (by decide) (by decide) (by decide)
